import Mathlib

/-!
Shallow embedding of `src/commerce/vtex/transform.ts` (a VTEX storefront
adapter) and proofs about its mapping functions.

Conventions of the embedding:
* JavaScript numbers that hold prices and quantities are modelled as `Int`
  (all the operations performed on them — comparison, subtraction — agree
  with exact arithmetic on the inputs of interest).
* `null` / `undefined`-able values are modelled with `Option`.
* Code that can throw is modelled in `Except String`.
* The single in-place mutation performed by the code
  (`categories.reverse()` inside `toBreadcrumbList`) is modelled by
  explicit state passing: `toProductPage` returns the final state of the
  product object next to its result.
* `Array.prototype.sort` with the consistent comparator `bestOfferFirst`
  is modelled by a stable sort with respect to `bestOfferFirst a b ≤ 0`,
  which is exactly what ECMAScript specifies for a consistent comparator.
-/

namespace VtexTransform

/-! ### JavaScript string primitives -/

/-- `String.prototype.split` with a single-character separator, on
character lists: `"".split(c) = [""]`, separators at the ends produce
empty segments. -/
def splitCharList (c : Char) : List Char → List (List Char)
  | [] => [[]]
  | a :: rest =>
    let r := splitCharList c rest
    if a = c then [] :: r
    else
      match r with
      | [] => [[a]]
      | h :: t => (a :: h) :: t

/-- `s.split(c)` for a single-character separator `c`. -/
def jsSplit (s : String) (c : Char) : List String :=
  (splitCharList c s.data).map String.mk

/-- `Array.prototype.join(sep)`. -/
def joinSep (sep : String) : List String → String
  | [] => ""
  | [a] => a
  | a :: b :: rest => a ++ sep ++ joinSep sep (b :: rest)

/-- Replace the first occurrence of `pat` in a character list by `repl`
(`String.prototype.replace` with a string pattern replaces only the first
occurrence). -/
def replaceFirstList (pat repl : List Char) : List Char → List Char
  | [] => []
  | a :: rest =>
    if pat.isPrefixOf (a :: rest) then repl ++ (a :: rest).drop pat.length
    else a :: replaceFirstList pat repl rest

/-- `s.replace(pat, repl)` (first occurrence only). -/
def replaceFirst (s pat repl : String) : String :=
  String.mk (replaceFirstList pat.data repl.data s.data)

/-! ### WHATWG URL model

The code uses `URL` and `URLSearchParams` only through: construction from
a path and an origin, reading `origin` / `pathname` / `search` / `href`,
and `searchParams.set`.  A URL is modelled as an origin, a pathname and an
ordered list of query parameters; percent-encoding is not modelled (the
inputs exercised here contain no characters that would be escaped). -/

structure JsURL where
  origin : String
  pathname : String
  params : List (String × String)
deriving DecidableEq

/-- `URLSearchParams.set`: replaces the value of the first entry with the
given name, removes the other entries with that name, or appends a new
entry at the end when the name is absent. -/
def setParam : List (String × String) → String → String → List (String × String)
  | [], k, v => [(k, v)]
  | (a, b) :: rest, k, v =>
    if a = k then (k, v) :: rest.filter (fun p => p.1 ≠ k)
    else (a, b) :: setParam rest k v

/-- Serialization of query parameters (`URLSearchParams.toString`),
without percent-encoding. -/
def serializeParams (ps : List (String × String)) : String :=
  joinSep "&" (ps.map (fun p => p.1 ++ "=" ++ p.2))

/-- `url.search`: empty for no parameters, otherwise a leading "?". -/
def JsURL.search (u : JsURL) : String :=
  if u.params.isEmpty then "" else "?" ++ serializeParams u.params

/-- `url.href` (no fragment in this model). -/
def JsURL.href (u : JsURL) : String :=
  u.origin ++ u.pathname ++ u.search

/-- `new URL(path, origin)` for an absolute path: an empty path resolves
to the root pathname "/". -/
def newURL (path origin : String) : JsURL :=
  ⟨origin, if path = "" then "/" else path, []⟩

/-! ### Vendor (VTEX) input shapes

The TypeScript interfaces (`src/commerce/vtex/types.ts`) are not part of
the provided sources; the structures below reproduce exactly the fields
`transform.ts` reads from them, with the legacy and the intelligent-search
variants merged into one structure discriminated the way the source
discriminates them (`origin`, first `variations` entry). -/

structure Installment where
  Value : Int
  Name : String
  NumberOfInstallments : Int
  PaymentSystemName : String
  TotalValuePlusInterestRate : Int
deriving DecidableEq

structure CommertialOffer where
  spotPrice : Option Int
  Price : Int
  ListPrice : Int
  PriceValidUntil : String
  AvailableQuantity : Int
  Installments : List Installment
deriving DecidableEq

structure SellerVTEX where
  sellerId : String
  commertialOffer : CommertialOffer
deriving DecidableEq

structure ImageVTEX where
  imageText : Option String
  imageUrl : String
deriving DecidableEq

/-- A named list of values, the shape of a modern product `properties`
entry and of a modern sku `variations` entry. -/
structure NamedValues where
  name : String
  values : List String
deriving DecidableEq

/-- The `variations` field: a list of names (legacy skus) or a list of
name/values objects (intelligent-search skus). -/
inductive VariationsData where
  | legacy (names : List String)
  | modern (specs : List NamedValues)
deriving DecidableEq

structure SkuVTEX where
  itemId : String
  name : String
  ean : String
  images : Option (List ImageVTEX)
  sellers : List SellerVTEX
  variations : Option VariationsData
  /-- The dynamic fields of a legacy sku (`sku[variation]`): one list of
  values per variation name that is actually present on the object. -/
  dynFields : List (String × List String)
deriving DecidableEq

structure ProductVTEX where
  origin : Option String
  productId : String
  productName : String
  productReference : String
  brand : String
  description : String
  releaseDate : String
  linkText : String
  categories : List String
  categoriesIds : List String
  items : List SkuVTEX
  allSpecifications : Option (List String)
  /-- The dynamic fields of a legacy product (`product[name]`): one list
  of values per specification name actually present on the object. -/
  dynFields : List (String × List String)
  properties : List NamedValues
deriving DecidableEq

structure ProductOptions where
  url : JsURL
  priceCurrency : String
deriving DecidableEq

structure LegacyFacet where
  Name : String
  Map : String
  Value : String
  Quantity : Nat
  LinkEncoded : String
deriving DecidableEq

/-! ### Canonical (schema.org) output shapes -/

structure PropertyValue where
  name : String
  value : String
  valueReference : Option String
deriving DecidableEq

structure UnitPriceSpecification where
  priceType : String
  priceComponentType : Option String
  name : Option String
  description : Option String
  billingDuration : Option Int
  billingIncrement : Option Int
  price : Int
deriving DecidableEq

structure InventoryLevel where
  value : Int
deriving DecidableEq

structure Offer where
  price : Int
  seller : String
  priceValidUntil : String
  inventoryLevel : InventoryLevel
  priceSpecification : List UnitPriceSpecification
  availability : String
deriving DecidableEq

structure ImageObject where
  alternateName : String
  url : String
deriving DecidableEq

structure AggregateOffer where
  priceCurrency : String
  highPrice : Option Int
  lowPrice : Option Int
  offerCount : Nat
  offers : List Offer
deriving DecidableEq

structure ListItem where
  name : Option String
  item : String
  position : Nat
deriving DecidableEq

structure BreadcrumbList where
  itemListElement : List ListItem
  numberOfItems : Nat
deriving DecidableEq

structure FilterValue where
  value : String
  quantity : Nat
  url : String
  label : String
  selected : Bool
deriving DecidableEq

structure FilterToggle where
  quantity : Nat
  label : String
  key : String
  values : List FilterValue
deriving DecidableEq

mutual
/-- The canonical `Product`: the record literal returned by `toProduct`,
with the fields in source order. -/
inductive Product where
  | mk
    (category : String)
    (productID : String)
    (url : String)
    (name : String)
    (description : String)
    (brand : String)
    (sku : String)
    (gtin : String)
    (releaseDate : String)
    (additionalProperty : List PropertyValue)
    (isVariantOf : ProductGroup)
    (image : List ImageObject)
    (offers : Option AggregateOffer)
/-- The `isVariantOf` product group built by `toProduct`. -/
inductive ProductGroup where
  | mk
    (productGroupID : String)
    (hasVariant : List Product)
    (url : String)
    (name : String)
    (additionalProperty : List PropertyValue)
    (model : String)
end

def Product.category : Product → String
  | .mk c _ _ _ _ _ _ _ _ _ _ _ _ => c

def Product.productID : Product → String
  | .mk _ p _ _ _ _ _ _ _ _ _ _ _ => p

def Product.url : Product → String
  | .mk _ _ u _ _ _ _ _ _ _ _ _ _ => u

def Product.name : Product → String
  | .mk _ _ _ n _ _ _ _ _ _ _ _ _ => n

def Product.additionalProperty : Product → List PropertyValue
  | .mk _ _ _ _ _ _ _ _ _ a _ _ _ => a

def Product.isVariantOf : Product → ProductGroup
  | .mk _ _ _ _ _ _ _ _ _ _ g _ _ => g

def Product.image : Product → List ImageObject
  | .mk _ _ _ _ _ _ _ _ _ _ _ i _ => i

def Product.offers : Product → Option AggregateOffer
  | .mk _ _ _ _ _ _ _ _ _ _ _ _ o => o

def ProductGroup.productGroupID : ProductGroup → String
  | .mk i _ _ _ _ _ => i

def ProductGroup.hasVariant : ProductGroup → List Product
  | .mk _ h _ _ _ _ => h

def ProductGroup.url : ProductGroup → String
  | .mk _ _ u _ _ _ => u

def ProductGroup.name : ProductGroup → String
  | .mk _ _ _ n _ _ => n

def ProductGroup.additionalProperty : ProductGroup → List PropertyValue
  | .mk _ _ _ _ a _ => a

def ProductGroup.model : ProductGroup → String
  | .mk _ _ _ _ _ m => m

structure ProductDetailsPage where
  breadcrumbList : BreadcrumbList
  product : Product

/-! ### transform.ts -/

/-- `isLegacySku`: `typeof (sku as LegacySkuVTEX).variations?.[0] === "string"`.
True exactly when `variations` is present, is the legacy (string list)
shape, and is non-empty. -/
def isLegacySku (sku : SkuVTEX) : Bool :=
  match sku.variations with
  | some (VariationsData.legacy (_ :: _)) => true
  | _ => false

/-- `isLegacyProduct`: `product.origin !== "intelligent-search"`. -/
def isLegacyProduct (product : ProductVTEX) : Bool :=
  !(product.origin == some "intelligent-search")

/-- `getCanonicalURL`: `new URL("/" + linkText + "/p", url.origin)`. -/
def getCanonicalURL (url : JsURL) (linkText : String) : JsURL :=
  newURL ("/" ++ linkText ++ "/p") url.origin

/-- `getProductURL`: the canonical URL, with the `skuId` search parameter
set when `skuId` is truthy (present and non-empty). -/
def getProductURL (url : JsURL) (linkText : String) (skuId : Option String) : JsURL :=
  let canonicalUrl := getCanonicalURL url linkText
  match skuId with
  | some s =>
    if s = "" then canonicalUrl
    else { canonicalUrl with params := setParam canonicalUrl.params "skuId" s }
  | none => canonicalUrl

/-- `nonEmptyArray`. -/
def nonEmptyArray (array : Option (List ImageVTEX)) : Option (List ImageVTEX) :=
  match array with
  | some l => if l.length > 0 then some l else none
  | none => none

def DEFAULT_IMAGE : ImageVTEX :=
  { imageText := some "image"
    imageUrl := "https://storecomponents.vtexassets.com/assets/faststore/images/image___117a6d3e229a96ad0e0d0876352566e2.svg" }

/-- `inStock`. -/
def inStock (offer : Offer) : Bool :=
  offer.availability == "https://schema.org/InStock"

/-- `bestOfferFirst` comparator: smallest available spot price first. -/
def bestOfferFirst (a b : Offer) : Int :=
  if inStock a && !inStock b then -1
  else if !inStock a && inStock b then 1
  else a.price - b.price

/-- The total preorder induced by the `bestOfferFirst` comparator. -/
def bestOfferLE (a b : Offer) : Prop :=
  bestOfferFirst a b ≤ 0

instance : DecidableRel bestOfferLE :=
  fun a b => inferInstanceAs (Decidable (bestOfferFirst a b ≤ 0))

/-- `toOffer`. -/
def toOffer (seller : SellerVTEX) : Offer :=
  let offer := seller.commertialOffer
  { price := offer.spotPrice.getD offer.Price
    seller := seller.sellerId
    priceValidUntil := offer.PriceValidUntil
    inventoryLevel := { value := offer.AvailableQuantity }
    priceSpecification :=
      { priceType := "https://schema.org/ListPrice"
        priceComponentType := none, name := none, description := none
        billingDuration := none, billingIncrement := none
        price := offer.ListPrice } ::
      { priceType := "https://schema.org/SalePrice"
        priceComponentType := none, name := none, description := none
        billingDuration := none, billingIncrement := none
        price := offer.Price } ::
      offer.Installments.map (fun installment =>
        { priceType := "https://schema.org/SalePrice"
          priceComponentType := some "https://schema.org/Installment"
          name := some installment.PaymentSystemName
          description := some installment.Name
          billingDuration := some installment.NumberOfInstallments
          billingIncrement := some installment.Value
          price := installment.TotalValuePlusInterestRate })
    availability :=
      if offer.AvailableQuantity > 0 then "https://schema.org/InStock"
      else "https://schema.org/OutOfStock" }

/-- `sku.sellers.map(toOffer).sort(bestOfferFirst)` (line 155): the stable
sort by the consistent comparator `bestOfferFirst`, i.e. the stable sort
with respect to `bestOfferFirst a b ≤ 0`. -/
def skuOffers (sku : SkuVTEX) : List Offer :=
  List.insertionSort bestOfferLE (sku.sellers.map toOffer)

/-- The loop of `getHighPriceIndex`:
`for (; it > 0 && !inStock(offers[it]); it--);` starting at `it`.
An out-of-range index reads `undefined`, which is treated as not in stock
(such reads do not occur in the guarded uses). -/
def hpScan (offers : List Offer) : Nat → Nat
  | 0 => 0
  | it + 1 =>
    match offers.get? (it + 1) with
    | some o => if inStock o then it + 1 else hpScan offers it
    | none => hpScan offers it

/-- `getHighPriceIndex` on a non-empty offers list. -/
def getHighPriceIndex (offers : List Offer) : Nat :=
  hpScan offers (offers.length - 1)

/-- `splitCategory`: `firstCategory.split("/").filter(Boolean)`. -/
def splitCategory (firstCategory : String) : List String :=
  (jsSplit firstCategory '/').filter (fun s => s ≠ "")

/-- `splitCategory(categories[0])`: throws a `TypeError` when the array is
empty (`undefined.split`). -/
def splitFirstCategory (categories : List String) : Except String (List String) :=
  match categories.head? with
  | some c => Except.ok (splitCategory c)
  | none => Except.error "TypeError: cannot read properties of undefined reading split"

/-- `toAdditionalPropertyCategories`. -/
def toAdditionalPropertyCategories (product : ProductVTEX) :
    Except String (List PropertyValue) := do
  let categories ← splitFirstCategory product.categories
  let categoryIds ← splitFirstCategory product.categoriesIds
  Except.ok
    (categories.map (fun category =>
      { name := "category", value := category, valueReference := none }) ++
     categoryIds.map (fun categoryId =>
      { name := "categoryId", value := categoryId, valueReference := none }))

/-- Left-to-right effectful map over `Except` (the first throw wins, as in
`Array.prototype.map` and `Array.prototype.flatMap`). -/
def exceptMapM (f : α → Except String β) : List α → Except String (List β)
  | [] => Except.ok []
  | a :: rest => do
    let b ← f a
    let bs ← exceptMapM f rest
    Except.ok (b :: bs)

/-- Reading a dynamic field of a legacy object (`product[name]`,
`sku[variation]`). -/
def lookupField (fields : List (String × List String)) (name : String) :
    Option (List String) :=
  (fields.find? (fun p => p.1 == name)).map (fun p => p.2)

/-- `legacyToProductGroupAdditionalProperties`: reading a specification
name that is absent from the object throws (`undefined.map`). -/
def legacyToProductGroupAdditionalProperties (product : ProductVTEX) :
    Except String (List PropertyValue) :=
  match product.allSpecifications with
  | none => Except.ok []
  | some names => do
    let lists ← exceptMapM (fun name =>
      match lookupField product.dynFields name with
      | some values =>
        Except.ok (values.map (fun value =>
          { name := name, value := value, valueReference := some "SPECIFICATION" }))
      | none => Except.error ("TypeError: cannot read properties of undefined reading map " ++ name))
      names
    Except.ok lists.flatten

/-- `toProductGroupAdditionalProperties` (intelligent-search shape). -/
def toProductGroupAdditionalProperties (product : ProductVTEX) : List PropertyValue :=
  product.properties.flatMap (fun nv =>
    nv.values.map (fun value =>
      { name := nv.name, value := value, valueReference := some "PROPERTY" }))

/-- `toAdditionalProperties` (intelligent-search sku): destructuring a
legacy (string) variation entry gives `values = undefined`, so a
non-empty legacy list throws. -/
def toAdditionalProperties (sku : SkuVTEX) : Except String (List PropertyValue) :=
  match sku.variations with
  | none => Except.ok []
  | some (VariationsData.modern specs) =>
    Except.ok (specs.flatMap (fun nv =>
      nv.values.map (fun value =>
        { name := nv.name, value := value, valueReference := some "SPECIFICATION" })))
  | some (VariationsData.legacy names) =>
    if names.isEmpty then Except.ok []
    else Except.error "TypeError: cannot read properties of undefined reading map"

/-- `toAdditionalPropertiesLegacy`: reading `sku[variation]` for an absent
variation name throws; a modern entry indexes the sku with a non-string
key and throws as well. -/
def toAdditionalPropertiesLegacy (sku : SkuVTEX) : Except String (List PropertyValue) :=
  match sku.variations with
  | none => Except.ok []
  | some (VariationsData.legacy names) => do
    let lists ← exceptMapM (fun variation =>
      match lookupField sku.dynFields variation with
      | some values =>
        Except.ok (values.map (fun value =>
          { name := variation, value := value, valueReference := some "SPECIFICATION" }))
      | none => Except.error ("TypeError: cannot read properties of undefined reading map " ++ variation))
      names
    Except.ok lists.flatten
  | some (VariationsData.modern specs) =>
    if specs.isEmpty then Except.ok []
    else Except.error "TypeError: cannot read properties of undefined reading map"

/-- Lines 148-150 of `toProduct`. -/
def groupAdditional (product : ProductVTEX) : Except String (List PropertyValue) :=
  if isLegacyProduct product then legacyToProductGroupAdditionalProperties product
  else Except.ok (toProductGroupAdditionalProperties product)

/-- Lines 151-153 of `toProduct`. -/
def specsAdditional (sku : SkuVTEX) : Except String (List PropertyValue) :=
  if isLegacySku sku then toAdditionalPropertiesLegacy sku
  else toAdditionalProperties sku

/-- The record literal returned by `toProduct` (lines 168-204), given the
values of the fallible bindings. -/
def buildProduct (product : ProductVTEX) (sku : SkuVTEX) (options : ProductOptions)
    (groupAdditionalProperty specificationsAdditionalProperty : List PropertyValue)
    (hasVariant : List Product) (cats0 : List String)
    (categoryAdditionalProperties : List PropertyValue) : Product :=
  let images := (nonEmptyArray sku.images).getD [DEFAULT_IMAGE]
  let offers := skuOffers sku
  let highPriceIndex := getHighPriceIndex offers
  Product.mk
    (joinSep ">" cats0)
    sku.itemId
    (getProductURL options.url product.linkText (some sku.itemId)).href
    sku.name
    product.description
    product.brand
    sku.itemId
    sku.ean
    product.releaseDate
    (specificationsAdditionalProperty ++ categoryAdditionalProperties)
    (ProductGroup.mk
      product.productId
      hasVariant
      (getProductURL options.url product.linkText (some sku.itemId)).href
      product.productName
      groupAdditionalProperty
      product.productReference)
    (images.map (fun i => ImageObject.mk (i.imageText.getD "") i.imageUrl))
    (if offers.length > 0 then
      some
        { priceCurrency := options.priceCurrency
          highPrice := (offers.get? highPriceIndex).map (fun o => o.price)
          lowPrice := offers.head?.map (fun o => o.price)
          offerCount := offers.length
          offers := offers }
     else none)

/-- `toProduct`, with the recursion made structural on an explicit fuel
argument.  The source guards its single self-recursive site with
`level < 1` and recurses with `level = 1`, so the recursion depth is at
most one and a fuel of `1` at entry is never exhausted (the `fuel = 0`
branch below is unreachable from `toProduct`). The bindings are evaluated
in source order. -/
def toProductF : Nat → ProductVTEX → SkuVTEX → Nat → ProductOptions →
    Except String Product
  | fuel, product, sku, level, options => do
    let groupAdditionalProperty ← groupAdditional product
    let specificationsAdditionalProperty ← specsAdditional sku
    let hasVariant ←
      (if level < 1 then
        match fuel with
        | 0 => Except.ok []
        | Nat.succ f =>
          exceptMapM (fun s => toProductF f product s 1 options) product.items
       else Except.ok [])
    let cats0 ← splitFirstCategory product.categories
    let categoryAdditionalProperties ← toAdditionalPropertyCategories product
    Except.ok (buildProduct product sku options groupAdditionalProperty
      specificationsAdditionalProperty hasVariant cats0 categoryAdditionalProperties)

/-- The `hasVariant` binding of `toProduct` (lines 156-157), in isolation:
`level < 1 && items.map((sku) => toProduct(product, sku, 1, options))`,
coerced by `hasVariant || []` to a list. -/
def hasVariantStep (fuel : Nat) (product : ProductVTEX) (level : Nat)
    (options : ProductOptions) : Except String (List Product) :=
  if level < 1 then
    match fuel with
    | 0 => Except.ok []
    | Nat.succ f =>
      exceptMapM (fun s => toProductF f product s 1 options) product.items
  else Except.ok []

/-- `toProduct` at the depth bound implied by its `level` guard. -/
def toProduct (product : ProductVTEX) (sku : SkuVTEX) (level : Nat)
    (options : ProductOptions) : Except String Product :=
  toProductF 1 product sku level options

/-- `slugify`, from `src/commerce/vtex/utils/slugify.ts`.
Modelled from the spec: the file is not among the provided sources and the
spec describes it only as part of "reverse and slugify a breadcrumb path";
it is modelled as a total string-to-string slug function (lower-case,
spaces to dashes).  No claim depends on its exact output. -/
def slugify (s : String) : String :=
  String.mk (s.data.map (fun c => if c = ' ' then '-' else c.toLower))

/-- `toBreadcrumbList` (pure value part).  In the source,
`categories.reverse()` reverses the array *in place*; the resulting state
of the product is accounted for in `toProductPage` below. -/
def toBreadcrumbList (product : ProductVTEX) (options : ProductOptions) :
    BreadcrumbList :=
  let reversed := product.categories.reverse
  { itemListElement :=
      reversed.enum.map (fun p =>
        let splitted := splitCategory p.2
        { name := splitted.getLast?
          item := (newURL ("/" ++ joinSep "/" (splitted.map slugify)) options.url.origin).href
          position := p.1 + 1 }) ++
      [{ name := some product.productName
         item := (getCanonicalURL options.url product.linkText).href
         position := product.categories.length + 1 }]
    numberOfItems := product.categories.length + 1 }

/-- `maybeSkuId ?? product.items[0]?.itemId`. -/
def requestedSkuId (product : ProductVTEX) (maybeSkuId : Option String) :
    Option String :=
  match maybeSkuId with
  | some s => some s
  | none => (product.items.head?).map (fun item => item.itemId)

/-- `toProductPage`.  The second component of the result is the final
state of the `product` argument: `toBreadcrumbList` reverses
`product.categories` in place, and `toProduct` is then called on the
mutated object. -/
def toProductPage (product : ProductVTEX) (maybeSkuId : Option String)
    (options : ProductOptions) : Except String ProductDetailsPage × ProductVTEX :=
  let skuId := requestedSkuId product maybeSkuId
  let sku? :=
    match skuId with
    | some s => product.items.find? (fun item => item.itemId == s)
    | none => none
  match sku? with
  | none =>
    (Except.error ("Missing sku " ++
        (match skuId with | some s => s | none => "undefined") ++
        " on product " ++ product.productName),
     product)
  | some sku =>
    let breadcrumbList := toBreadcrumbList product options
    let mutated := { product with categories := product.categories.reverse }
    (match toProduct mutated sku 0 options with
     | Except.error e => Except.error e
     | Except.ok prod =>
       Except.ok { breadcrumbList := breadcrumbList, product := prod },
     mutated)

/-- `unselect`. -/
def unselect (facet : LegacyFacet) (url : JsURL) (map : String) : String :=
  let mapSegments := jsSplit map ','
  if mapSegments.length = 1 then
    url.pathname ++ url.search
  else
    let mapSegments' :=
      match mapSegments.findIdx? (fun segment => segment == facet.Map) with
      | some index => mapSegments.eraseIdx index
      | none => mapSegments
    let newUrl := newURL (replaceFirst url.pathname ("/" ++ facet.Value) "") url.origin
    let newUrl := { newUrl with params := url.params }
    let newUrl :=
      if mapSegments'.length > 0 then
        { newUrl with params := setParam newUrl.params "map" (joinSep "," mapSegments') }
      else newUrl
    newUrl.pathname ++ newUrl.search

/-- `legacyFacetToFilter`.  `new Set(xs)` is modelled by `xs.dedup`
(membership and cardinality are all the code uses). -/
def legacyFacetToFilter (name : String) (facets : List LegacyFacet) (url : JsURL)
    (map : String) : FilterToggle :=
  let mapSegments := (jsSplit map ',').dedup
  let pathSegments := ((jsSplit url.pathname '/').take (mapSegments.length + 1)).dedup
  { quantity := facets.length
    label := name
    key := name
    values := facets.map (fun facet =>
      let selected := mapSegments.contains facet.Map && pathSegments.contains facet.Value
      let href := if selected then unselect facet url map else facet.LinkEncoded
      { value := facet.Value
        quantity := facet.Quantity
        url := href
        label := facet.Name
        selected := selected }) }

/-- The `{ key, value }` pairs of selected facets. -/
structure SelectedFacet where
  key : String
  value : String
deriving DecidableEq

/-- `filtersToSearchParams`: the `URLSearchParams` built by appending
`filter.<key> = value` for each selected facet, modelled as its ordered
entry list. -/
def filtersToSearchParams (selectedFacets : List SelectedFacet) :
    List (String × String) :=
  selectedFacets.map (fun f => ("filter." ++ f.key, f.value))

/-- `filtersFromSearchParams`: iterates the entries in order, splits each
name on ".", and keeps the entries whose first segment is "filter" and
which have a second segment. -/
def filtersFromSearchParams (params : List (String × String)) : List SelectedFacet :=
  params.filterMap (fun entry =>
    match jsSplit entry.1 '.' with
    | filter :: key :: _ =>
      if filter = "filter" then some { key := key, value := entry.2 } else none
    | _ => none)

/-! ### Derived notions used by the statements -/

/-- `q` is the minimum of the list `s`. -/
def IsMinOf (q : Int) (s : List Int) : Prop :=
  q ∈ s ∧ ∀ r ∈ s, q ≤ r

/-- `q` is the maximum of the list `s`. -/
def IsMaxOf (q : Int) (s : List Int) : Prop :=
  q ∈ s ∧ ∀ r ∈ s, r ≤ q

/-- All offers of a sku, in seller order (`sku.sellers.map(toOffer)`). -/
def allOffers (sku : SkuVTEX) : List Offer :=
  sku.sellers.map toOffer

/-- The price fields of a list of offers. -/
def allPrices (offers : List Offer) : List Int :=
  offers.map (fun o => o.price)

/-- The price fields of the in-stock offers of a list. -/
def inStockPrices (offers : List Offer) : List Int :=
  ((offers.filter (fun o => inStock o)).map (fun o => o.price))

/-- The `isVariantOf.hasVariant` list of a `toProduct` result (empty when
the call threw). -/
def variantsOf (e : Except String Product) : List Product :=
  match e with
  | Except.ok p => p.isVariantOf.hasVariant
  | Except.error _ => []

/-- Every specification name of a legacy product is present on the
object (so `legacyToProductGroupAdditionalProperties` cannot throw). -/
def legacyOkB (product : ProductVTEX) : Bool :=
  !isLegacyProduct product ||
    (product.allSpecifications.getD []).all (fun n => (lookupField product.dynFields n).isSome)

/-- Every variation name of a legacy sku is present on the object (so
`toAdditionalPropertiesLegacy` cannot throw). -/
def skuOkB (sku : SkuVTEX) : Bool :=
  match sku.variations with
  | some (VariationsData.legacy names) =>
    names.all (fun n => (lookupField sku.dynFields n).isSome)
  | _ => true

/-- The well-formedness of a vendor product under which the only failure
mode of `toProductPage` is the missing-variant throw: non-empty
`categories` and `categoriesIds`, and all dynamic legacy fields present. -/
def wellFormedB (product : ProductVTEX) : Bool :=
  !product.categories.isEmpty && !product.categoriesIds.isEmpty &&
    legacyOkB product && product.items.all skuOkB

/-- The requested variant id matches no element of `product.items` (this
includes the case of an absent id, which matches no item). -/
def variantAbsentB (product : ProductVTEX) (maybeSkuId : Option String) : Bool :=
  match requestedSkuId product maybeSkuId with
  | none => true
  | some s => product.items.all (fun item => !(item.itemId == s))

/-! ### Order instances for the offer comparator -/

instance : IsTotal Offer bestOfferLE := by
  constructor
  intro a b
  simp only [bestOfferLE, bestOfferFirst]
  cases ha : inStock a <;> cases hb : inStock b <;> simp <;> omega

instance : IsTrans Offer bestOfferLE := by
  constructor
  intro a b c
  simp only [bestOfferLE, bestOfferFirst]
  cases ha : inStock a <;> cases hb : inStock b <;> cases hc : inStock c <;>
    simp <;> omega

/-! ### Concrete sample inputs for witnesses and counterexamples -/

/-- A seller building an offer with the given price and stock. -/
def mkSeller (sid : String) (price : Int) (qty : Int) : SellerVTEX :=
  { sellerId := sid
    commertialOffer :=
      { spotPrice := none, Price := price, ListPrice := price
        PriceValidUntil := "2030-01-01", AvailableQuantity := qty
        Installments := [] } }

/-- A sku with an in-stock offer priced 10 and an out-of-stock offer
priced 5. -/
def sampleSku : SkuVTEX :=
  { itemId := "1", name := "sku one", ean := "0001"
    images := none
    sellers := [mkSeller "a" 10 5, mkSeller "b" 5 0]
    variations := none, dynFields := [] }

/-- A well-formed intelligent-search product with `sampleSku` as its only
item. -/
def sampleProduct : ProductVTEX :=
  { origin := some "intelligent-search", productId := "p1", productName := "Prod"
    productReference := "ref1", brand := "BrandX", description := "desc"
    releaseDate := "2020-01-01", linkText := "prod"
    categories := ["/Apparel/", "/Apparel/Shirts/"]
    categoriesIds := ["/11/", "/11/22/"]
    items := [sampleSku]
    allSpecifications := none, dynFields := [], properties := [] }

def sampleOptions : ProductOptions :=
  { url := ⟨"https://ex.com", "/prod/p", []⟩, priceCurrency := "USD" }

/-- A product violating well-formedness: empty `categories`, though its
requested variant exists. -/
def emptyCategoriesProduct : ProductVTEX :=
  { sampleProduct with categories := [] }

/-- A legacy product whose sku carries legacy variations, used to witness
the legacy branches of `toProduct`. -/
def legacySku : SkuVTEX :=
  { itemId := "7", name := "legacy sku", ean := "0007"
    images := some [{ imageText := none, imageUrl := "https://img" }]
    sellers := [mkSeller "s" 8 1]
    variations := some (VariationsData.legacy ["Color"])
    dynFields := [("Color", ["Blue"])] }

def legacyProduct : ProductVTEX :=
  { origin := none, productId := "p7", productName := "Legacy"
    productReference := "ref7", brand := "BrandY", description := "d7"
    releaseDate := "2019-01-01", linkText := "legacy"
    categories := ["/Home/"], categoriesIds := ["/9/"]
    items := [legacySku]
    allSpecifications := some ["Material"]
    dynFields := [("Material", ["Wood"])]
    properties := [] }

/-- A seller with a spot price distinct from its list `Price`. -/
def spotSeller : SellerVTEX :=
  { sellerId := "spot"
    commertialOffer :=
      { spotPrice := some 5, Price := 10, ListPrice := 12
        PriceValidUntil := "2030-01-01", AvailableQuantity := 3
        Installments := [] } }

/-- A sku whose `itemId` is the empty string (falsy in JavaScript). -/
def emptyIdSku : SkuVTEX :=
  { itemId := "", name := "anon", ean := ""
    images := none, sellers := [], variations := none, dynFields := [] }

/-- A product whose only item has an empty `itemId`. -/
def emptyIdProduct : ProductVTEX :=
  { sampleProduct with linkText := "foo", items := [emptyIdSku] }

/-! ### Basic lemmas about the embedding -/

theorem toProductF_eq (fuel : Nat) (product : ProductVTEX) (sku : SkuVTEX)
    (level : Nat) (options : ProductOptions) :
    toProductF fuel product sku level options =
      (do
        let g ← groupAdditional product
        let s ← specsAdditional sku
        let hv ← hasVariantStep fuel product level options
        let c0 ← splitFirstCategory product.categories
        let cats ← toAdditionalPropertyCategories product
        Except.ok (buildProduct product sku options g s hv c0 cats)) := by
  unfold toProductF hasVariantStep
  rfl

theorem exceptMapM_ok_mem {α β : Type} {f : α → Except String β} :
    ∀ {l : List α} {bs : List β}, exceptMapM f l = Except.ok bs →
      ∀ b ∈ bs, ∃ a ∈ l, f a = Except.ok b := by
  intro l
  induction l with
  | nil =>
    intro bs h b hb
    simp only [exceptMapM] at h
    cases h
    simp at hb
  | cons a rest ih =>
    intro bs h b hb
    simp only [exceptMapM] at h
    cases hfa : f a with
    | error e => rw [hfa] at h; simp [Bind.bind, Except.bind] at h
    | ok b0 =>
      rw [hfa] at h
      cases hrest : exceptMapM f rest with
      | error e => rw [hrest] at h; simp [Bind.bind, Except.bind] at h
      | ok bs0 =>
        rw [hrest] at h
        simp only [Bind.bind, Except.bind, pure, Except.pure] at h
        cases h
        rcases List.mem_cons.mp hb with hb0 | hbs
        · exact ⟨a, List.mem_cons_self a rest, hb0 ▸ hfa⟩
        · rcases ih hrest b hbs with ⟨a', ha', hfa'⟩
          exact ⟨a', List.mem_cons_of_mem a ha', hfa'⟩

theorem exceptMapM_ok_of_forall {α β : Type} {f : α → Except String β} :
    ∀ {l : List α}, (∀ a ∈ l, ∃ b, f a = Except.ok b) →
      ∃ bs, exceptMapM f l = Except.ok bs := by
  intro l
  induction l with
  | nil => intro _; exact ⟨[], rfl⟩
  | cons a rest ih =>
    intro h
    rcases h a (List.mem_cons_self a rest) with ⟨b, hb⟩
    rcases ih (fun x hx => h x (List.mem_cons_of_mem a hx)) with ⟨bs, hbs⟩
    exact ⟨b :: bs, by simp [exceptMapM, hb, hbs, Bind.bind, Except.bind, pure, Except.pure]⟩

/-- Inversion of a successful `toProductF` call into its bindings. -/
theorem toProductF_ok_elim {fuel : Nat} {product : ProductVTEX} {sku : SkuVTEX}
    {level : Nat} {options : ProductOptions} {p : Product}
    (h : toProductF fuel product sku level options = Except.ok p) :
    ∃ g s hv c0 cats,
      groupAdditional product = Except.ok g ∧
      specsAdditional sku = Except.ok s ∧
      hasVariantStep fuel product level options = Except.ok hv ∧
      splitFirstCategory product.categories = Except.ok c0 ∧
      toAdditionalPropertyCategories product = Except.ok cats ∧
      p = buildProduct product sku options g s hv c0 cats := by
  rw [toProductF_eq] at h
  cases hg : groupAdditional product with
  | error e => rw [hg] at h; simp [Bind.bind, Except.bind] at h
  | ok g =>
  rw [hg] at h
  cases hs : specsAdditional sku with
  | error e => rw [hs] at h; simp [Bind.bind, Except.bind] at h
  | ok s =>
  rw [hs] at h
  cases hhv : hasVariantStep fuel product level options with
  | error e => rw [hhv] at h; simp [Bind.bind, Except.bind] at h
  | ok hv =>
  rw [hhv] at h
  cases hc0 : splitFirstCategory product.categories with
  | error e => rw [hc0] at h; simp [Bind.bind, Except.bind] at h
  | ok c0 =>
  rw [hc0] at h
  cases hcats : toAdditionalPropertyCategories product with
  | error e => rw [hcats] at h; simp [Bind.bind, Except.bind] at h
  | ok cats =>
  rw [hcats] at h
  simp only [Bind.bind, Except.bind, pure, Except.pure] at h
  cases h
  exact ⟨g, s, hv, c0, cats, rfl, rfl, rfl, rfl, rfl, rfl⟩

theorem buildProduct_isVariantOf_hasVariant (product : ProductVTEX) (sku : SkuVTEX)
    (options : ProductOptions) (g s : List PropertyValue) (hv : List Product)
    (c0 : List String) (cats : List PropertyValue) :
    (buildProduct product sku options g s hv c0 cats).isVariantOf.hasVariant = hv := rfl

/-- At `level = 1` the `hasVariant` guard fails, so the variants list of
the result is empty. -/
theorem toProductF_level1_no_variants {fuel : Nat} {product : ProductVTEX}
    {sku : SkuVTEX} {options : ProductOptions} {q : Product}
    (h : toProductF fuel product sku 1 options = Except.ok q) :
    q.isVariantOf.hasVariant = [] := by
  rcases toProductF_ok_elim h with ⟨g, s, hv, c0, cats, _, _, hhv, _, _, hq⟩
  have hnil : hv = [] := by
    simp only [hasVariantStep] at hhv
    simp at hhv
    exact hhv
  subst hq
  rw [buildProduct_isVariantOf_hasVariant, hnil]

/-! ### Claim theorems -/

/-- C10: `toProduct` terminates on every input (it is a total function in
this embedding: the `level < 1` guard bounds the recursion depth by one,
so a structural fuel of `1` suffices), and every variant product inside
the returned `isVariantOf.hasVariant` list itself has an empty
`hasVariant` list. -/
theorem c10_variant_depth_at_most_one (product : ProductVTEX) (sku : SkuVTEX)
    (options : ProductOptions) :
    (variantsOf (toProduct product sku 0 options)).all
      (fun q => q.isVariantOf.hasVariant.isEmpty) = true := by
  cases h : toProduct product sku 0 options with
  | error e => simp [variantsOf]
  | ok p =>
    simp only [variantsOf]
    simp only [toProduct] at h
    rcases toProductF_ok_elim h with ⟨g, s, hv, c0, cats, _, _, hhv, _, _, hp⟩
    subst hp
    rw [buildProduct_isVariantOf_hasVariant]
    rw [List.all_eq_true]
    intro q hq
    simp only [hasVariantStep, if_pos (by omega : (0 : Nat) < 1)] at hhv
    rcases exceptMapM_ok_mem hhv q hq with ⟨a, _, hfa⟩
    simp [toProductF_level1_no_variants hfa]

/-- C7 counterexample: for a seller whose `commertialOffer` has
`spotPrice = 5` and `Price = 10`, the offer's `price` is `5`, not the
`Price` field — `toOffer` does not map `commertialOffer.Price` to
`price` when a spot price is present. -/
theorem c7_counterexample :
    (toOffer spotSeller).price = 5 ∧ spotSeller.commertialOffer.Price = 10 ∧
      (5 : Int) ≠ 10 := by
  refine ⟨rfl, rfl, by decide⟩

/-- C7 (amended): `toOffer` maps `commertialOffer.spotPrice` — falling
back to `commertialOffer.Price` when the spot price is absent — to the
resulting offer's `price` field. -/
theorem c7_price_is_spot_or_list (seller : SellerVTEX) :
    (toOffer seller).price =
      seller.commertialOffer.spotPrice.getD seller.commertialOffer.Price := rfl

/-- C2: `toProductPage` is not pure.  `toBreadcrumbList` reverses
`product.categories` in place, so after the call the input product's
`categories` is the reversed sequence, and a second call on the same
(now mutated) object returns a different breadcrumb list. -/
theorem c2_toProductPage_mutates_categories :
    (toProductPage sampleProduct none sampleOptions).2.categories =
      sampleProduct.categories.reverse ∧
    (toProductPage sampleProduct none sampleOptions).2.categories ≠
      sampleProduct.categories ∧
    ((toProductPage (toProductPage sampleProduct none sampleOptions).2 none
        sampleOptions).1.toOption.map ProductDetailsPage.breadcrumbList) ≠
      ((toProductPage sampleProduct none sampleOptions).1.toOption.map
        ProductDetailsPage.breadcrumbList) := by
  refine ⟨rfl, by decide, by decide⟩

/-- C3: the offers list built inside `toProduct`
(`sku.sellers.map(toOffer).sort(bestOfferFirst)`, i.e. `skuOffers`) is
ordered stock-then-price: no out-of-stock offer precedes an in-stock one
(equivalently, every in-stock offer precedes every out-of-stock offer),
and within each availability group the `price` fields are in
non-decreasing order. -/
theorem c3_offers_sorted_stock_then_price (sku : SkuVTEX) :
    (skuOffers sku).Pairwise (fun a b =>
      (inStock b = true → inStock a = true) ∧
      (inStock a = inStock b → a.price ≤ b.price)) := by
  have hs : List.Sorted bestOfferLE (skuOffers sku) :=
    List.sorted_insertionSort bestOfferLE (sku.sellers.map toOffer)
  refine hs.imp ?_
  intro a b hab
  unfold bestOfferLE bestOfferFirst at hab
  cases ha : inStock a <;> cases hb : inStock b <;>
    simp [ha, hb] at hab ⊢ <;> omega

theorem splitCharList_of_not_mem {c : Char} :
    ∀ {l : List Char}, c ∉ l → splitCharList c l = [l] := by
  intro l
  induction l with
  | nil => intro _; rfl
  | cons a rest ih =>
    intro h
    have hac : a ≠ c := fun hh => h (hh ▸ List.mem_cons_self a rest)
    have hcr : c ∉ rest := fun hh => h (List.mem_cons_of_mem a hh)
    simp only [splitCharList, if_neg hac, ih hcr]

theorem splitCharList_append_sep {c : Char} :
    ∀ {cs : List Char}, c ∉ cs → ∀ rest : List Char,
      splitCharList c (cs ++ c :: rest) = cs :: splitCharList c rest := by
  intro cs
  induction cs with
  | nil =>
    intro _ rest
    simp [splitCharList]
  | cons a cs ih =>
    intro h rest
    have hac : a ≠ c := fun hh => h (hh ▸ List.mem_cons_self a cs)
    have hcs : c ∉ cs := fun hh => h (List.mem_cons_of_mem a hh)
    simp only [List.cons_append, List.append_eq, splitCharList, if_neg hac, ih hcs]

theorem jsSplit_filterDot_append (k : String) (h : ('.' : Char) ∉ k.data) :
    jsSplit ("filter." ++ k) '.' = ["filter", k] := by
  unfold jsSplit
  rw [String.data_append]
  have hdata : ("filter." : String).data = "filter".data ++ ('.' :: []) := rfl
  rw [hdata, List.append_assoc, List.singleton_append]
  rw [splitCharList_append_sep (by decide) k.data]
  rw [splitCharList_of_not_mem h]
  rfl

/-- C9: for a list of selected facets whose keys contain no ".",
`filtersFromSearchParams` is a left inverse of `filtersToSearchParams`:
the same pairs come back in the same order. -/
theorem c9_filters_roundtrip (fs : List SelectedFacet)
    (h : ∀ f ∈ fs, ('.' : Char) ∉ f.key.data) :
    filtersFromSearchParams (filtersToSearchParams fs) = fs := by
  induction fs with
  | nil => rfl
  | cons f rest ih =>
    have hf := h f (List.mem_cons_self f rest)
    have hrest := fun x hx => h x (List.mem_cons_of_mem f hx)
    simp only [filtersToSearchParams, List.map_cons] at ih ⊢
    simp only [filtersFromSearchParams, List.filterMap_cons] at ih ⊢
    rw [jsSplit_filterDot_append f.key hf]
    simp [ih hrest]

/-- C9 witness: the round trip on the concrete list
`[{key := "brand", value := "x"}]`. -/
theorem c9_witness :
    (∀ f ∈ [SelectedFacet.mk "brand" "x"], ('.' : Char) ∉ f.key.data) ∧
    filtersFromSearchParams (filtersToSearchParams [SelectedFacet.mk "brand" "x"]) =
      [SelectedFacet.mk "brand" "x"] :=
  ⟨by decide, c9_filters_roundtrip [SelectedFacet.mk "brand" "x"] (by decide)⟩

/-- C5: `legacyFacetToFilter` marks a facet value as selected iff the
facet's `Map` is among the comma-separated segments of `map` and the
facet's `Value` is among the first `|mapSegments| + 1` slash-separated
segments of the URL's pathname (where `|mapSegments|` is the number of
distinct map segments); a selected value's url is the `unselect` URL and
an unselected value's url is the facet's `LinkEncoded`. -/
theorem c5_legacy_facet_selection (name : String) (facets : List LegacyFacet)
    (url : JsURL) (map : String) :
    (legacyFacetToFilter name facets url map).values =
      facets.map (fun facet =>
        let sel := decide (facet.Map ∈ jsSplit map ',' ∧
          facet.Value ∈ (jsSplit url.pathname '/').take
            ((jsSplit map ',').dedup.length + 1))
        { value := facet.Value, quantity := facet.Quantity
          url := if sel then unselect facet url map else facet.LinkEncoded
          label := facet.Name, selected := sel }) := by
  simp only [legacyFacetToFilter]
  refine List.map_congr_left ?_
  intro facet _
  have h1 : ((jsSplit map ',').dedup).contains facet.Map =
      decide (facet.Map ∈ jsSplit map ',') := by
    simp [List.contains, List.mem_dedup]
  have h2 : (((jsSplit url.pathname '/').take
        ((jsSplit map ',').dedup.length + 1)).dedup).contains facet.Value =
      decide (facet.Value ∈ (jsSplit url.pathname '/').take
        ((jsSplit map ',').dedup.length + 1)) := by
    simp [List.contains, List.mem_dedup]
  simp only [h1, h2, Bool.decide_and]

theorem buildProduct_additionalProperty (product : ProductVTEX) (sku : SkuVTEX)
    (options : ProductOptions) (g s : List PropertyValue) (hv : List Product)
    (c0 : List String) (cats : List PropertyValue) :
    (buildProduct product sku options g s hv c0 cats).additionalProperty =
      s ++ cats := rfl

theorem buildProduct_group_additionalProperty (product : ProductVTEX) (sku : SkuVTEX)
    (options : ProductOptions) (g s : List PropertyValue) (hv : List Product)
    (c0 : List String) (cats : List PropertyValue) :
    (buildProduct product sku options g s hv c0 cats).isVariantOf.additionalProperty =
      g := rfl

theorem isLegacyProduct_eq_true_iff (product : ProductVTEX) :
    isLegacyProduct product = true ↔ product.origin ≠ some "intelligent-search" := by
  simp [isLegacyProduct]

theorem isLegacySku_eq_true_iff (sku : SkuVTEX) :
    isLegacySku sku = true ↔
      ∃ names, sku.variations = some (VariationsData.legacy names) ∧ names ≠ [] := by
  unfold isLegacySku
  cases hv : sku.variations with
  | none => simp
  | some vd =>
    cases vd with
    | legacy names => cases names <;> simp
    | modern specs => simp

/-- C6: `toProduct` selects its branching paths by the type guards on the
discriminating fields: the product-group properties of the result come
from the legacy mapping exactly when `product.origin` differs from
`"intelligent-search"`, and the sku specification properties come from
the legacy mapping exactly when the first `variations` entry of the sku
is a string (a non-empty legacy variations list); otherwise the modern
mappings are used. -/
theorem c6_branch_selection (product : ProductVTEX) (sku : SkuVTEX)
    (options : ProductOptions) (p : Product)
    (h : toProduct product sku 0 options = Except.ok p) :
    ((product.origin = some "intelligent-search" →
        p.isVariantOf.additionalProperty = toProductGroupAdditionalProperties product) ∧
     (product.origin ≠ some "intelligent-search" →
        legacyToProductGroupAdditionalProperties product =
          Except.ok p.isVariantOf.additionalProperty)) ∧
    (isLegacySku sku = true ↔
      ∃ names, sku.variations = some (VariationsData.legacy names) ∧ names ≠ []) ∧
    (∃ cats, toAdditionalPropertyCategories product = Except.ok cats ∧
      (isLegacySku sku = true →
        ∃ s, toAdditionalPropertiesLegacy sku = Except.ok s ∧
          p.additionalProperty = s ++ cats) ∧
      (isLegacySku sku = false →
        ∃ s, toAdditionalProperties sku = Except.ok s ∧
          p.additionalProperty = s ++ cats)) := by
  simp only [toProduct] at h
  rcases toProductF_ok_elim h with ⟨g, s, hv, c0, cats, hg, hs, _, _, hcats, hp⟩
  subst hp
  refine ⟨⟨?_, ?_⟩, isLegacySku_eq_true_iff sku, cats, hcats, ?_, ?_⟩
  · intro horigin
    rw [buildProduct_group_additionalProperty]
    have hlegacy : isLegacyProduct product = false := by
      simp [isLegacyProduct, horigin]
    simp only [groupAdditional, hlegacy, Bool.false_eq_true, if_false] at hg
    exact (Except.ok.injEq _ _ ▸ hg : _) ▸ rfl
  · intro horigin
    rw [buildProduct_group_additionalProperty]
    have hlegacy : isLegacyProduct product = true :=
      (isLegacyProduct_eq_true_iff product).mpr horigin
    simp only [groupAdditional, hlegacy, if_true] at hg
    exact hg
  · intro hsku
    rw [buildProduct_additionalProperty]
    simp only [specsAdditional, hsku, if_true] at hs
    exact ⟨s, hs, rfl⟩
  · intro hsku
    rw [buildProduct_additionalProperty]
    simp only [specsAdditional, hsku, Bool.false_eq_true, if_false] at hs
    exact ⟨s, hs, rfl⟩

/-- C6 witness: the branch selection at the concrete legacy product and
legacy sku. -/
theorem c6_witness :
    ∃ p, toProduct legacyProduct legacySku 0 sampleOptions = Except.ok p ∧
      (((legacyProduct.origin = some "intelligent-search" →
          p.isVariantOf.additionalProperty =
            toProductGroupAdditionalProperties legacyProduct) ∧
        (legacyProduct.origin ≠ some "intelligent-search" →
          legacyToProductGroupAdditionalProperties legacyProduct =
            Except.ok p.isVariantOf.additionalProperty)) ∧
       (isLegacySku legacySku = true ↔
         ∃ names, legacySku.variations = some (VariationsData.legacy names) ∧
           names ≠ []) ∧
       (∃ cats, toAdditionalPropertyCategories legacyProduct = Except.ok cats ∧
         (isLegacySku legacySku = true →
           ∃ s, toAdditionalPropertiesLegacy legacySku = Except.ok s ∧
             p.additionalProperty = s ++ cats) ∧
         (isLegacySku legacySku = false →
           ∃ s, toAdditionalProperties legacySku = Except.ok s ∧
             p.additionalProperty = s ++ cats))) :=
  ⟨_, rfl, c6_branch_selection legacyProduct legacySku sampleOptions _ rfl⟩

theorem buildProduct_url (product : ProductVTEX) (sku : SkuVTEX)
    (options : ProductOptions) (g s : List PropertyValue) (hv : List Product)
    (c0 : List String) (cats : List PropertyValue) :
    (buildProduct product sku options g s hv c0 cats).url =
      (getProductURL options.url product.linkText (some sku.itemId)).href := rfl

theorem buildProduct_group_url (product : ProductVTEX) (sku : SkuVTEX)
    (options : ProductOptions) (g s : List PropertyValue) (hv : List Product)
    (c0 : List String) (cats : List PropertyValue) :
    (buildProduct product sku options g s hv c0 cats).isVariantOf.url =
      (getProductURL options.url product.linkText (some sku.itemId)).href := rfl

theorem slash_append_ne_empty (s t : String) : ("/" ++ s ++ t) ≠ "" := by
  intro hcontra
  have hdata := congrArg String.data hcontra
  rw [String.data_append, String.data_append] at hdata
  have h1 : ("/" : String).data = ['/'] := rfl
  have h2 : ("" : String).data = [] := rfl
  rw [h1, h2] at hdata
  simp at hdata

/-- C8 (amended): provided the sku's `itemId` is non-empty, both the
product's `url` and its `isVariantOf.url` are the URL with path
`/linkText/p` on the request URL's origin with the `skuId` search
parameter set to the itemId, and the canonical URL used for the
breadcrumb's final list item is `/linkText/p` on the same origin with no
parameters.  (For an empty `itemId` the `skuId` parameter is omitted,
because JavaScript treats the empty string as falsy: see the
counterexample.) -/
theorem c8_amended_urls (product : ProductVTEX) (sku : SkuVTEX)
    (options : ProductOptions) (p : Product)
    (h : toProduct product sku 0 options = Except.ok p) (hid : sku.itemId ≠ "") :
    ∃ u : JsURL, p.url = u.href ∧ p.isVariantOf.url = u.href ∧
      u.origin = options.url.origin ∧
      u.pathname = "/" ++ product.linkText ++ "/p" ∧
      u.params = [("skuId", sku.itemId)] ∧
      ∃ c : JsURL,
        ((toBreadcrumbList product options).itemListElement.getLast?).map
            ListItem.item = some c.href ∧
        c.origin = options.url.origin ∧
        c.pathname = "/" ++ product.linkText ++ "/p" ∧
        c.params = [] := by
  simp only [toProduct] at h
  rcases toProductF_ok_elim h with ⟨g, s, hv, c0, cats, _, _, _, _, _, hp⟩
  subst hp
  refine ⟨getProductURL options.url product.linkText (some sku.itemId),
    buildProduct_url .., buildProduct_group_url .., ?_, ?_, ?_,
    getCanonicalURL options.url product.linkText, ?_, rfl, ?_, rfl⟩
  · simp [getProductURL, getCanonicalURL, newURL, hid]
  · simp [getProductURL, getCanonicalURL, newURL, hid,
      slash_append_ne_empty product.linkText "/p"]
  · simp [getProductURL, getCanonicalURL, newURL, setParam, hid]
  · unfold toBreadcrumbList
    rw [List.getLast?_concat]
    rfl
  · simp [getCanonicalURL, newURL, slash_append_ne_empty product.linkText "/p"]

/-- C8 witness: the URLs of the concrete sample product. -/
theorem c8_witness :
    ∃ p, toProduct sampleProduct sampleSku 0 sampleOptions = Except.ok p ∧
      ∃ u : JsURL, p.url = u.href ∧ p.isVariantOf.url = u.href ∧
        u.origin = sampleOptions.url.origin ∧
        u.pathname = "/" ++ sampleProduct.linkText ++ "/p" ∧
        u.params = [("skuId", sampleSku.itemId)] ∧
        ∃ c : JsURL,
          ((toBreadcrumbList sampleProduct sampleOptions).itemListElement.getLast?).map
              ListItem.item = some c.href ∧
          c.origin = sampleOptions.url.origin ∧
          c.pathname = "/" ++ sampleProduct.linkText ++ "/p" ∧
          c.params = [] :=
  ⟨_, rfl, c8_amended_urls sampleProduct sampleSku sampleOptions _ rfl (by decide)⟩

/-- C8 counterexample: for a sku whose `itemId` is the empty string, the
product URL carries no `skuId` parameter (the truthiness check
`if (skuId)` skips it), so it differs from the URL the claim requires,
which would have `skuId` set to the empty string. -/
theorem c8_counterexample :
    ((toProduct emptyIdProduct emptyIdSku 0 sampleOptions).toOption.map
        Product.url) = some "https://ex.com/foo/p" ∧
    (JsURL.mk "https://ex.com" "/foo/p" [("skuId", "")]).href =
      "https://ex.com/foo/p?skuId=" ∧
    ("https://ex.com/foo/p" : String) ≠ "https://ex.com/foo/p?skuId=" := by
  refine ⟨by decide, by decide, by decide⟩

theorem groupAdditional_ok (product : ProductVTEX) (h : legacyOkB product = true) :
    ∃ g, groupAdditional product = Except.ok g := by
  unfold groupAdditional
  cases hl : isLegacyProduct product with
  | false => exact ⟨toProductGroupAdditionalProperties product, by simp⟩
  | true =>
    simp only [if_true]
    unfold legacyToProductGroupAdditionalProperties
    cases has : product.allSpecifications with
    | none => exact ⟨[], rfl⟩
    | some names =>
      have hall : ∀ n ∈ names, (lookupField product.dynFields n).isSome = true := by
        unfold legacyOkB at h
        rw [hl, has] at h
        simpa [List.all_eq_true] using h
      have hok : ∀ n ∈ names, ∃ b,
          (match lookupField product.dynFields n with
           | some values =>
             Except.ok (values.map (fun value =>
               ({ name := n, value := value,
                  valueReference := some "SPECIFICATION" } : PropertyValue)))
           | none => Except.error
               ("TypeError: cannot read properties of undefined reading map " ++ n)) =
            Except.ok b := by
        intro n hn
        rcases Option.isSome_iff_exists.mp (hall n hn) with ⟨v, hv⟩
        exact ⟨_, by rw [hv]⟩
      rcases exceptMapM_ok_of_forall hok with ⟨bs, hbs⟩
      exact ⟨bs.flatten, by simp [hbs, Bind.bind, Except.bind, pure, Except.pure]⟩

theorem specsAdditional_ok (sku : SkuVTEX) (h : skuOkB sku = true) :
    ∃ s, specsAdditional sku = Except.ok s := by
  unfold specsAdditional
  cases hv : sku.variations with
  | none =>
    refine ⟨[], ?_⟩
    simp [isLegacySku, hv, toAdditionalProperties]
  | some vd =>
    cases vd with
    | modern specs =>
      have hres : specsAdditional sku =
          Except.ok (specs.flatMap (fun nv =>
            nv.values.map (fun value =>
              ({ name := nv.name, value := value,
                 valueReference := some "SPECIFICATION" } : PropertyValue)))) := by
        simp [specsAdditional, isLegacySku, hv, toAdditionalProperties]
      exact ⟨_, hres⟩
    | legacy names =>
      cases names with
      | nil =>
        refine ⟨[], ?_⟩
        simp [isLegacySku, hv, toAdditionalProperties]
      | cons n ns =>
        have hsku : isLegacySku sku = true := by simp [isLegacySku, hv]
        simp only [hsku, if_true]
        unfold toAdditionalPropertiesLegacy
        rw [hv]
        have hall : ∀ m ∈ n :: ns, (lookupField sku.dynFields m).isSome = true := by
          unfold skuOkB at h
          rw [hv] at h
          simpa [List.all_eq_true] using h
        have hok : ∀ m ∈ n :: ns, ∃ b,
            (match lookupField sku.dynFields m with
             | some values =>
               Except.ok (values.map (fun value =>
                 ({ name := m, value := value,
                    valueReference := some "SPECIFICATION" } : PropertyValue)))
             | none => Except.error
                 ("TypeError: cannot read properties of undefined reading map " ++ m)) =
              Except.ok b := by
          intro m hm
          rcases Option.isSome_iff_exists.mp (hall m hm) with ⟨v, hvv⟩
          exact ⟨_, by rw [hvv]⟩
        rcases exceptMapM_ok_of_forall hok with ⟨bs, hbs⟩
        exact ⟨bs.flatten, by simp [hbs, Bind.bind, Except.bind, pure, Except.pure]⟩

theorem splitFirstCategory_ok (categories : List String) (h : categories ≠ []) :
    ∃ c0, splitFirstCategory categories = Except.ok c0 := by
  cases categories with
  | nil => exact absurd rfl h
  | cons c rest => exact ⟨splitCategory c, rfl⟩

theorem toAdditionalPropertyCategories_ok (product : ProductVTEX)
    (hc : product.categories ≠ []) (hci : product.categoriesIds ≠ []) :
    ∃ cats, toAdditionalPropertyCategories product = Except.ok cats := by
  rcases splitFirstCategory_ok product.categories hc with ⟨a, ha⟩
  rcases splitFirstCategory_ok product.categoriesIds hci with ⟨b, hb⟩
  have hres : toAdditionalPropertyCategories product =
      Except.ok
        (a.map (fun category =>
          ({ name := "category", value := category, valueReference := none } :
            PropertyValue)) ++
         b.map (fun categoryId =>
          ({ name := "categoryId", value := categoryId, valueReference := none } :
            PropertyValue))) := by
    unfold toAdditionalPropertyCategories
    rw [ha, hb]
    rfl
  exact ⟨_, hres⟩

theorem toProductF_ok_level1 (fuel : Nat) (product : ProductVTEX) (sku : SkuVTEX)
    (options : ProductOptions)
    (hc : product.categories ≠ []) (hci : product.categoriesIds ≠ [])
    (hleg : legacyOkB product = true) (hsku : skuOkB sku = true) :
    ∃ p, toProductF fuel product sku 1 options = Except.ok p := by
  rcases groupAdditional_ok product hleg with ⟨g, hg⟩
  rcases specsAdditional_ok sku hsku with ⟨s, hs⟩
  rcases splitFirstCategory_ok product.categories hc with ⟨c0, hc0⟩
  rcases toAdditionalPropertyCategories_ok product hc hci with ⟨cats, hcats⟩
  refine ⟨buildProduct product sku options g s [] c0 cats, ?_⟩
  rw [toProductF_eq]
  have hhv : hasVariantStep fuel product 1 options = Except.ok [] := by
    simp [hasVariantStep]
  rw [hg, hs, hhv, hc0, hcats]
  rfl

theorem toProductF_ok_level0 (product : ProductVTEX) (sku : SkuVTEX)
    (options : ProductOptions)
    (hc : product.categories ≠ []) (hci : product.categoriesIds ≠ [])
    (hleg : legacyOkB product = true)
    (hitems : product.items.all skuOkB = true) (hsku : skuOkB sku = true) :
    ∃ p, toProductF 1 product sku 0 options = Except.ok p := by
  rcases groupAdditional_ok product hleg with ⟨g, hg⟩
  rcases specsAdditional_ok sku hsku with ⟨s, hs⟩
  rcases splitFirstCategory_ok product.categories hc with ⟨c0, hc0⟩
  rcases toAdditionalPropertyCategories_ok product hc hci with ⟨cats, hcats⟩
  have hok : ∀ a ∈ product.items, ∃ b, toProductF 0 product a 1 options = Except.ok b := by
    intro a ha
    exact toProductF_ok_level1 0 product a options hc hci hleg
      ((List.all_eq_true.mp hitems) a ha)
  rcases exceptMapM_ok_of_forall hok with ⟨hvl, hhvl⟩
  refine ⟨buildProduct product sku options g s hvl c0 cats, ?_⟩
  rw [toProductF_eq]
  have hhv : hasVariantStep 1 product 0 options = Except.ok hvl := by
    simpa [hasVariantStep] using hhvl
  rw [hg, hs, hhv, hc0, hcats]
  rfl

/-- C1 (amended): for a well-formed product (non-empty `categories` and
`categoriesIds`, all legacy dynamic fields present), `toProductPage`
throws if and only if the requested variant id (the given sku id, or the
first item's id when none is given) matches no element of
`product.items`.  Without well-formedness the function has further
failure modes: see the counterexample. -/
theorem c1_throw_iff_variant_absent (product : ProductVTEX)
    (maybeSkuId : Option String) (options : ProductOptions)
    (hwf : wellFormedB product = true) :
    ((toProductPage product maybeSkuId options).1.isOk = false) ↔
      variantAbsentB product maybeSkuId = true := by
  have hwf' := hwf
  unfold wellFormedB at hwf'
  simp only [Bool.and_eq_true] at hwf'
  obtain ⟨⟨⟨hc, hci⟩, hleg⟩, hitems⟩ := hwf'
  have hcne : product.categories ≠ [] := by
    simpa [List.isEmpty_iff] using hc
  have hcine : product.categoriesIds ≠ [] := by
    simpa [List.isEmpty_iff] using hci
  simp only [toProductPage]
  cases hreq : requestedSkuId product maybeSkuId with
  | none =>
    simp only [variantAbsentB, hreq]
    simp [Except.isOk, Except.toBool]
  | some s =>
    simp only [variantAbsentB, hreq]
    cases hfind : product.items.find? (fun item => item.itemId == s) with
    | none =>
      simp only [hfind]
      constructor
      · intro _
        rw [List.all_eq_true]
        intro item hitem
        have hni := List.find?_eq_none.mp hfind item hitem
        simpa using hni
      · intro _
        simp [Except.isOk, Except.toBool]
    | some sku =>
      simp only [hfind]
      have hmem := List.mem_of_find?_eq_some hfind
      have hbeq := List.find?_some hfind
      have hskuOk : skuOkB sku = true := List.all_eq_true.mp hitems sku hmem
      have hmc : ({ product with categories := product.categories.reverse } :
          ProductVTEX).categories ≠ [] := by
        simpa using hcne
      rcases toProductF_ok_level0
          { product with categories := product.categories.reverse } sku options
          hmc hcine hleg hitems hskuOk with ⟨p, hp⟩
      constructor
      · intro habs
        exfalso
        simp only [toProduct] at habs
        rw [hp] at habs
        simp [Except.isOk, Except.toBool] at habs
      · intro hall
        exfalso
        rw [List.all_eq_true] at hall
        have hskuAll := hall sku hmem
        simp [hbeq] at hskuAll

/-- C1 counterexample: a product with empty `categories` whose requested
variant exists — `toProductPage` still throws (a `TypeError` inside
`toProduct`, not the missing-variant error), refuting "throws only when
the requested variant id is absent". -/
theorem c1_counterexample :
    ((toProductPage emptyCategoriesProduct (some "1") sampleOptions).1.isOk = false) ∧
    variantAbsentB emptyCategoriesProduct (some "1") = false := by
  refine ⟨by decide, by decide⟩

/-- C1 witness: the iff at the concrete well-formed sample product. -/
theorem c1_witness :
    wellFormedB sampleProduct = true ∧
    (((toProductPage sampleProduct (some "1") sampleOptions).1.isOk = false) ↔
      variantAbsentB sampleProduct (some "1") = true) :=
  ⟨by decide,
   c1_throw_iff_variant_absent sampleProduct (some "1") sampleOptions (by decide)⟩

theorem bestOfferLE_imp {a b : Offer} (hab : bestOfferLE a b) :
    (inStock b = true → inStock a = true) ∧
    (inStock a = inStock b → a.price ≤ b.price) := by
  unfold bestOfferLE bestOfferFirst at hab
  cases ha : inStock a <;> cases hb : inStock b <;>
    simp [ha, hb] at hab ⊢ <;> omega

theorem buildProduct_offers (product : ProductVTEX) (sku : SkuVTEX)
    (options : ProductOptions) (g s : List PropertyValue) (hv : List Product)
    (c0 : List String) (cats : List PropertyValue) :
    (buildProduct product sku options g s hv c0 cats).offers =
      (if (skuOffers sku).length > 0 then
        some
          { priceCurrency := options.priceCurrency
            highPrice := ((skuOffers sku).get? (getHighPriceIndex (skuOffers sku))).map
              (fun o => o.price)
            lowPrice := (skuOffers sku).head?.map (fun o => o.price)
            offerCount := (skuOffers sku).length
            offers := skuOffers sku }
       else none) := rfl

theorem hpScan_le (offers : List Offer) : ∀ it, hpScan offers it ≤ it := by
  intro it
  induction it with
  | zero => simp [hpScan]
  | succ n ih =>
    simp only [hpScan]
    cases offers.get? (n + 1) with
    | none => exact Nat.le_succ_of_le ih
    | some o =>
      by_cases ho : inStock o
      · simp [ho]
      · simp only [ho, Bool.false_eq_true, if_false]
        exact Nat.le_succ_of_le ih

theorem hpScan_zero_or_inStock (offers : List Offer) :
    ∀ it, hpScan offers it = 0 ∨
      ∃ o, offers.get? (hpScan offers it) = some o ∧ inStock o = true := by
  intro it
  induction it with
  | zero => exact Or.inl rfl
  | succ n ih =>
    simp only [hpScan]
    cases hg : offers.get? (n + 1) with
    | none => exact ih
    | some o =>
      by_cases ho : inStock o
      · refine Or.inr ⟨o, ?_, ho⟩
        have hg' : offers[n + 1]? = some o := by
          rw [← List.get?_eq_getElem?]
          exact hg
        simp [ho, hg, hg']
      · simp only [ho, Bool.false_eq_true, if_false]
        exact ih

theorem hpScan_after (offers : List Offer) :
    ∀ it k, hpScan offers it < k → k ≤ it →
      ∀ o, offers.get? k = some o → inStock o = false := by
  intro it
  induction it with
  | zero => intro k h1 h2 o _; omega
  | succ n ih =>
    intro k h1 h2 o hg
    cases hgn : offers.get? (n + 1) with
    | none =>
      simp only [hpScan, hgn] at h1
      rcases Nat.lt_or_ge k (n + 1) with hk | hk
      · exact ih k h1 (by omega) o hg
      · have hkeq : k = n + 1 := by omega
        rw [hkeq, hgn] at hg
        cases hg
    | some o' =>
      simp only [hpScan, hgn] at h1
      by_cases ho' : inStock o'
      · rw [if_pos ho'] at h1
        omega
      · rw [if_neg ho'] at h1
        rcases Nat.lt_or_ge k (n + 1) with hk | hk
        · exact ih k h1 (by omega) o hg
        · have hkeq : k = n + 1 := by omega
          rw [hkeq, hgn] at hg
          cases hg
          simpa using ho'

/-- In a `bestOfferLE`-sorted offers list the head is in stock as soon as
any element is, and its price bounds every same-availability element. -/
theorem sorted_head_spec (L : List Offer) (hs : L.Pairwise bestOfferLE)
    (o₀ : Offer) (h0 : L.head? = some o₀) :
    ∀ o ∈ L, (inStock o = true → inStock o₀ = true) ∧
      (inStock o₀ = inStock o → o₀.price ≤ o.price) := by
  cases L with
  | nil => cases h0
  | cons a tail =>
    cases h0
    intro o ho
    rcases List.mem_cons.mp ho with h | h
    · subst h
      exact ⟨fun hh => hh, fun _ => le_refl _⟩
    · exact bestOfferLE_imp ((List.pairwise_cons.mp hs).1 o h)

/-- In a `bestOfferLE`-sorted list with an in-stock element, the index
returned by `getHighPriceIndex` holds an in-stock offer whose price
bounds the price of every in-stock element. -/
theorem sorted_high_spec (L : List Offer) (hs : L.Pairwise bestOfferLE)
    (hne : L ≠ []) (hin : ∃ o ∈ L, inStock o = true) :
    ∃ oh, L.get? (getHighPriceIndex L) = some oh ∧ inStock oh = true ∧
      ∀ o ∈ L, inStock o = true → o.price ≤ oh.price := by
  have hlen : 0 < L.length := List.length_pos.mpr hne
  have hjle : getHighPriceIndex L ≤ L.length - 1 := hpScan_le L (L.length - 1)
  have hjlt : getHighPriceIndex L < L.length := by omega
  have hstock : inStock (L.get ⟨getHighPriceIndex L, hjlt⟩) = true := by
    rcases hpScan_zero_or_inStock L (L.length - 1) with h0 | ⟨o', ho', hino'⟩
    · rcases hin with ⟨oin, hmem, hinst⟩
      rcases List.mem_iff_get.mp hmem with ⟨⟨i, hilt⟩, hgi⟩
      by_cases hi0 : i = 0
      · subst hi0
        have hoin : L.get ⟨getHighPriceIndex L, hjlt⟩ = oin := by
          have he : (⟨getHighPriceIndex L, hjlt⟩ : Fin L.length) = ⟨0, hlen⟩ := by
            apply Fin.ext
            exact h0
          rw [he]
          exact hgi
        rw [hoin]
        exact hinst
      · exfalso
        have hf : inStock oin = false := by
          refine hpScan_after L (L.length - 1) i ?_ (by omega) oin ?_
          · have h0' : getHighPriceIndex L = 0 := h0
            omega
          · rw [← hgi]
            exact List.get?_eq_get hilt
        rw [hinst] at hf
        cases hf
    · have ho'' : L.get? (getHighPriceIndex L) = some o' := ho'
      have heq : some (L.get ⟨getHighPriceIndex L, hjlt⟩) = some o' := by
        rw [← List.get?_eq_get hjlt]
        exact ho''
      cases heq
      exact hino'
  refine ⟨L.get ⟨getHighPriceIndex L, hjlt⟩, List.get?_eq_get hjlt, hstock, ?_⟩
  intro o hmem hinst
  rcases List.mem_iff_get.mp hmem with ⟨⟨i, hilt⟩, hgi⟩
  have hile : i ≤ getHighPriceIndex L := by
    by_contra hgt
    push_neg at hgt
    have hf : inStock o = false := by
      refine hpScan_after L (L.length - 1) i hgt (by omega) o ?_
      rw [← hgi]
      exact List.get?_eq_get hilt
    rw [hinst] at hf
    cases hf
  rcases Nat.lt_or_ge i (getHighPriceIndex L) with hlt | hge
  · have hle := List.pairwise_iff_get.mp hs ⟨i, hilt⟩ ⟨getHighPriceIndex L, hjlt⟩ hlt
    have himp := bestOfferLE_imp hle
    rw [hgi] at himp
    refine himp.2 ?_
    rw [hinst, hstock]
  · have hieq : i = getHighPriceIndex L := by omega
    subst hieq
    rw [hgi]

/-- With no in-stock element, `getHighPriceIndex` returns `0`. -/
theorem high_idx_of_no_inStock (L : List Offer)
    (hout : ∀ o ∈ L, inStock o = false) : getHighPriceIndex L = 0 := by
  rcases hpScan_zero_or_inStock L (L.length - 1) with h0 | ⟨o, ho, hino⟩
  · exact h0
  · have hmem : o ∈ L := List.get?_mem ho
    rw [hout o hmem] at hino
    cases hino

/-- C4 (amended): for a sku with at least one seller, the AggregateOffer
of `toProduct` has `lowPrice` equal to the minimum price among the
*in-stock* offers and `highPrice` equal to the maximum price among the
*in-stock* offers, whenever at least one offer is in stock; when no offer
is in stock, `lowPrice` is the minimum price over all offers and
`highPrice` coincides with it (not the maximum: see the counterexample
for the claim as stated). -/
theorem c4_amended_price_range (product : ProductVTEX) (sku : SkuVTEX)
    (options : ProductOptions) (p : Product)
    (h : toProduct product sku 0 options = Except.ok p)
    (hsellers : sku.sellers ≠ []) :
    ∃ agg, p.offers = some agg ∧ ∃ lp hp, agg.lowPrice = some lp ∧
      agg.highPrice = some hp ∧
      (if (allOffers sku).any inStock then
        IsMinOf lp (inStockPrices (allOffers sku)) ∧
        IsMaxOf hp (inStockPrices (allOffers sku))
       else IsMinOf lp (allPrices (allOffers sku)) ∧ hp = lp) := by
  simp only [toProduct] at h
  rcases toProductF_ok_elim h with ⟨g, s, hv, c0, cats, _, _, _, _, _, hp'⟩
  subst hp'
  rw [buildProduct_offers]
  have hperm : List.Perm (skuOffers sku) (allOffers sku) :=
    List.perm_insertionSort bestOfferLE (sku.sellers.map toOffer)
  have hsort : (skuOffers sku).Pairwise bestOfferLE :=
    List.sorted_insertionSort bestOfferLE (sku.sellers.map toOffer)
  have hAne : allOffers sku ≠ [] := by
    unfold allOffers
    intro hnil
    exact hsellers (List.map_eq_nil_iff.mp hnil)
  have hLne : skuOffers sku ≠ [] := by
    intro hnil
    apply hAne
    have hl := hperm.length_eq
    rw [hnil] at hl
    exact List.length_eq_zero.mp hl.symm
  have hlen : 0 < (skuOffers sku).length := List.length_pos.mpr hLne
  rw [if_pos hlen]
  refine ⟨_, rfl, ?_⟩
  cases hL0 : (skuOffers sku).head? with
  | none => exact absurd (List.head?_eq_none_iff.mp hL0) hLne
  | some o₀ =>
  have hmem0 : o₀ ∈ skuOffers sku :=
    List.get?_mem (by rw [List.get?_zero]; exact hL0)
  have hheadspec := sorted_head_spec (skuOffers sku) hsort o₀ hL0
  by_cases hin : (allOffers sku).any inStock = true
  · rcases List.any_eq_true.mp hin with ⟨oin, hoinA, hoinS⟩
    have hoinL : oin ∈ skuOffers sku := hperm.mem_iff.mpr hoinA
    rcases sorted_high_spec (skuOffers sku) hsort hLne ⟨oin, hoinL, hoinS⟩ with
      ⟨oh, hohget, hohS, hohBound⟩
    have h0S : inStock o₀ = true := (hheadspec oin hoinL).1 hoinS
    refine ⟨o₀.price, oh.price, rfl, by rw [hohget]; rfl, ?_⟩
    rw [if_pos hin]
    refine ⟨⟨?_, ?_⟩, ⟨?_, ?_⟩⟩
    · exact List.mem_map.mpr
        ⟨o₀, List.mem_filter.mpr ⟨hperm.mem_iff.mp hmem0, h0S⟩, rfl⟩
    · intro r hr
      rcases List.mem_map.mp hr with ⟨o, hof, rfl⟩
      rcases List.mem_filter.mp hof with ⟨hoA, hoS⟩
      exact (hheadspec o (hperm.mem_iff.mpr hoA)).2 (by rw [h0S, hoS])
    · exact List.mem_map.mpr
        ⟨oh, List.mem_filter.mpr ⟨hperm.mem_iff.mp (List.get?_mem hohget), hohS⟩, rfl⟩
    · intro r hr
      rcases List.mem_map.mp hr with ⟨o, hof, rfl⟩
      rcases List.mem_filter.mp hof with ⟨hoA, hoS⟩
      exact hohBound o (hperm.mem_iff.mpr hoA) hoS
  · have hfalse : (allOffers sku).any inStock = false := by
      revert hin
      cases (allOffers sku).any inStock <;> simp
    have hout : ∀ o ∈ allOffers sku, inStock o = false := by
      intro o ho
      have hno := List.any_eq_false.mp hfalse o ho
      revert hno
      cases inStock o <;> simp
    have hidx : getHighPriceIndex (skuOffers sku) = 0 :=
      high_idx_of_no_inStock _ (fun o ho => hout o (hperm.mem_iff.mp ho))
    refine ⟨o₀.price, o₀.price, rfl, ?_, ?_⟩
    · rw [hidx, List.get?_zero, hL0]
      rfl
    · rw [if_neg hin]
      refine ⟨⟨?_, ?_⟩, rfl⟩
      · exact List.mem_map.mpr ⟨o₀, hperm.mem_iff.mp hmem0, rfl⟩
      · intro r hr
        rcases List.mem_map.mp hr with ⟨o, hoA, rfl⟩
        exact (hheadspec o (hperm.mem_iff.mpr hoA)).2
          (by rw [hout o hoA, hout o₀ (hperm.mem_iff.mp hmem0)])

/-- C4 counterexample: for a sku with an in-stock offer priced 10 and an
out-of-stock offer priced 5, the AggregateOffer's `lowPrice` is 10, while
the minimum of the price fields over *all* of the sku's offers is 5 —
the claim as stated (min over all offers) is false. -/
theorem c4_counterexample :
    ((toProduct sampleProduct sampleSku 0 sampleOptions).toOption.bind
        Product.offers).map AggregateOffer.lowPrice = some (some 10) ∧
    (5 : Int) ∈ allPrices (allOffers sampleSku) ∧ (5 : Int) < 10 := by
  refine ⟨by decide, by decide, by decide⟩

/-- C4 witness: the amended price range property at the concrete sample
sku (in-stock offer priced 10, out-of-stock offer priced 5). -/
theorem c4_witness :
    ∃ p, toProduct sampleProduct sampleSku 0 sampleOptions = Except.ok p ∧
      ∃ agg, p.offers = some agg ∧ ∃ lp hp, agg.lowPrice = some lp ∧
        agg.highPrice = some hp ∧
        (if (allOffers sampleSku).any inStock then
          IsMinOf lp (inStockPrices (allOffers sampleSku)) ∧
          IsMaxOf hp (inStockPrices (allOffers sampleSku))
         else IsMinOf lp (allPrices (allOffers sampleSku)) ∧ hp = lp) :=
  ⟨_, rfl,
   c4_amended_price_range sampleProduct sampleSku sampleOptions _ rfl (by decide)⟩

end VtexTransform
